import Mathlib

/-!
Verification development for the rpg_ai session host.

This file gives a shallow embedding, in Lean 4, of the core data model and
operations of the repository: the session registry (src/core/player.py), the
rolling history log (src/core/game_state.py), the action queue and its batch
processor (src/core/action_queue.py), and the bracketed-command recognition of
the simplified game master (src/game_master/simple_master.py, network/server.py).

Modelling conventions:
- Wall-clock readings (datetime.now()) are modelled by a monotone Nat counter
  threaded through the state; uuid4() identifiers are modelled by a fresh Nat
  counter.  Only ordering and freshness of these values matter to the code.
- Python object identity for queued actions is modelled by a `uid` field;
  mutation through an alias (the last-story-context pointer aliases an entry
  of the action list) is modelled by updating both copies consistently.
- The external generation collaborator (AIEngine.generate_response) is an
  opaque parameter `ai : String → String → Option String`; `none` models a
  failed call (Python returns None).  Python truthiness (`if not ai_response`,
  `story_context or default`) treats the empty string like None, which the
  helper `orTruthy` reproduces.
- random.shuffle is an opaque parameter `shuffle`; theorems that depend on it
  assume only that it permutes its input.
-/

namespace RpgAi

/-! ## Decimal rendering of naturals (Python str(counter)) -/

/-- Character for a single decimal digit, as in Python formatting. -/
def digitChr (d : Nat) : Char := Char.ofNat (48 + d)

/-- Decimal digits of `n`, least significant first, with structural fuel.
Fuel `n` is always enough, see `ofDigitsRev_natDigitsRevAux`. -/
def natDigitsRevAux : Nat → Nat → List Nat
  | 0, n => [n]
  | fuel + 1, n => if n < 10 then [n] else n % 10 :: natDigitsRevAux fuel (n / 10)

/-- Decimal string of a natural number; the embedding of Python str(n). -/
def natToStr (n : Nat) : String :=
  String.mk (((natDigitsRevAux n n).reverse).map digitChr)

/-- Value of a least-significant-first digit list. -/
def ofDigitsRev : List Nat → Nat
  | [] => 0
  | d :: ds => d + 10 * ofDigitsRev ds

theorem ofDigitsRev_natDigitsRevAux :
    ∀ fuel n, n ≤ fuel → ofDigitsRev (natDigitsRevAux fuel n) = n := by
  intro fuel
  induction fuel with
  | zero =>
    intro n hn
    interval_cases n
    rfl
  | succ fuel ih =>
    intro n hn
    by_cases h10 : n < 10
    · simp [natDigitsRevAux, h10, ofDigitsRev]
    · have hpos : 0 < n := by omega
      have hdiv : n / 10 < n := Nat.div_lt_self hpos (by omega)
      have hle : n / 10 ≤ fuel := by omega
      simp only [natDigitsRevAux, h10, if_false, ofDigitsRev, ih _ hle]
      omega

theorem natDigitsRevAux_lt_ten :
    ∀ fuel n, n ≤ fuel → ∀ d ∈ natDigitsRevAux fuel n, d < 10 := by
  intro fuel
  induction fuel with
  | zero =>
    intro n hn d hd
    interval_cases n
    simp [natDigitsRevAux] at hd
    omega
  | succ fuel ih =>
    intro n hn d hd
    by_cases h10 : n < 10
    · simp [natDigitsRevAux, h10] at hd
      omega
    · have hpos : 0 < n := by omega
      have hdiv : n / 10 < n := Nat.div_lt_self hpos (by omega)
      simp only [natDigitsRevAux, h10, if_false, List.mem_cons] at hd
      rcases hd with hd | hd
      · omega
      · exact ih _ (by omega) d hd

/-- Inverse of `digitChr` on decimal digits. -/
def chrDigit (c : Char) : Nat := c.toNat - 48

theorem chrDigit_digitChr_fin : ∀ d : Fin 10, chrDigit (digitChr d.val) = d.val := by
  decide

theorem chrDigit_digitChr (d : Nat) (hd : d < 10) : chrDigit (digitChr d) = d :=
  chrDigit_digitChr_fin ⟨d, hd⟩

theorem map_chrDigit_map_digitChr (l : List Nat) (h : ∀ d ∈ l, d < 10) :
    (l.map digitChr).map chrDigit = l := by
  induction l with
  | nil => rfl
  | cons d ds ih =>
    simp only [List.map_cons, List.cons.injEq]
    exact ⟨chrDigit_digitChr d (h d (by simp)), ih (fun x hx => h x (by simp [hx]))⟩

theorem natToStr_injective : Function.Injective natToStr := by
  intro m n h
  have hdata : (((natDigitsRevAux m m).reverse).map digitChr)
      = (((natDigitsRevAux n n).reverse).map digitChr) := by
    have := congrArg String.data h
    simpa [natToStr] using this
  have hrev : (natDigitsRevAux m m).reverse = (natDigitsRevAux n n).reverse := by
    have h1 := congrArg (List.map chrDigit) hdata
    rwa [map_chrDigit_map_digitChr _ (by
        intro d hd
        exact natDigitsRevAux_lt_ten m m le_rfl d (List.mem_reverse.mp hd)),
      map_chrDigit_map_digitChr _ (by
        intro d hd
        exact natDigitsRevAux_lt_ten n n le_rfl d (List.mem_reverse.mp hd))] at h1
  have hlists : natDigitsRevAux m m = natDigitsRevAux n n :=
    List.reverse_injective hrev
  calc m = ofDigitsRev (natDigitsRevAux m m) := (ofDigitsRev_natDigitsRevAux m m le_rfl).symm
    _ = ofDigitsRev (natDigitsRevAux n n) := congrArg ofDigitsRev hlists
    _ = n := ofDigitsRev_natDigitsRevAux n n le_rfl

theorem natToStr_data_injective (m n : Nat)
    (h : (natToStr m).data = (natToStr n).data) : m = n := by
  apply natToStr_injective
  cases hm : natToStr m
  cases hn : natToStr n
  simp only [hm, hn] at h ⊢
  exact congrArg String.mk h

/-! ## Session registry (src/core/player.py) -/

/-- Argument passed to datetime.fromtimestamp.  Python is dynamically typed:
Player.last_activity stores a datetime object, while fromtimestamp expects a
POSIX numeric timestamp and raises TypeError on a datetime object. -/
inductive PyTimeVal
  | datetimeObj (t : Nat)
  | floatVal (t : Nat)
deriving DecidableEq

/-- Embedding of datetime.fromtimestamp: succeeds on a numeric timestamp,
raises TypeError (modelled as Except.error) on a datetime object. -/
def datetimeFromtimestamp : PyTimeVal → Except String Nat
  | .floatVal t => .ok t
  | .datetimeObj _ => .error "an integer is required (got type datetime.datetime)"

/-- Participant record (Player.__init__).  The constant preferences dictionary
and the character payload (initially None, never used by the claims) are not
modelled; uuid4 is modelled as a fresh Nat, datetime.now() as a clock value. -/
structure Player where
  id : Nat
  name : String
  connection : Nat
  joined_at : Nat
  last_activity : PyTimeVal
  is_ready : Bool
  is_gm : Bool
deriving DecidableEq

/-- Player.__init__(name, connection): last_activity is set to a datetime
object (datetime.now()). -/
def mkPlayer (uuid now : Nat) (name : String) (conn : Nat) : Player :=
  { id := uuid, name := name, connection := conn, joined_at := now,
    last_activity := .datetimeObj now, is_ready := false, is_gm := false }

/-- Player.update_activity: stores datetime.now(), again a datetime object. -/
def Player.update_activity (p : Player) (now : Nat) : Player :=
  { p with last_activity := .datetimeObj now }

/-- Collision loop of PlayerManager.add_player: starting from suffix
`counter`, return the first `orig_counter` name not yet taken.  The loop in
the source is a while loop; the fuel argument makes it structural, and
`resolveNameAux_spec` shows the fuel used by `resolveName` is never
exhausted. -/
def resolveNameAux (existing : List String) (orig : String) : Nat → Nat → String
  | counter, 0 => orig ++ "_" ++ natToStr counter
  | counter, fuel + 1 =>
    let cand := orig ++ "_" ++ natToStr counter
    if cand ∈ existing then resolveNameAux existing orig (counter + 1) fuel else cand

/-- Unique-name generation of PlayerManager.add_player: keep the submitted
name if free, otherwise append the first free numeric suffix. -/
def resolveName (existing : List String) (orig : String) : String :=
  if orig ∈ existing then resolveNameAux existing orig 1 (existing.length + 1) else orig

theorem resolveNameAux_spec (existing : List String) (orig : String) :
    ∀ fuel counter,
      (∃ j, counter ≤ j ∧ j < counter + fuel ∧ (orig ++ "_" ++ natToStr j) ∉ existing) →
      ∃ k, counter ≤ k ∧ k < counter + fuel ∧
        resolveNameAux existing orig counter fuel = orig ++ "_" ++ natToStr k ∧
        (orig ++ "_" ++ natToStr k) ∉ existing ∧
        ∀ j, counter ≤ j → j < k → (orig ++ "_" ++ natToStr j) ∈ existing := by
  intro fuel
  induction fuel with
  | zero =>
    rintro counter ⟨j, hj1, hj2, _⟩
    omega
  | succ fuel ih =>
    rintro counter ⟨j, hj1, hj2, hj3⟩
    by_cases hmem : (orig ++ "_" ++ natToStr counter) ∈ existing
    · have hjc : counter + 1 ≤ j := by
        rcases Nat.eq_or_lt_of_le hj1 with h | h
        · exact absurd hmem (h ▸ hj3)
        · omega
      obtain ⟨k, hk1, hk2, hk3, hk4, hk5⟩ :=
        ih (counter + 1) ⟨j, hjc, by omega, hj3⟩
      refine ⟨k, by omega, by omega, ?_, hk4, ?_⟩
      · simpa [resolveNameAux, hmem] using hk3
      · intro i hi1 hi2
        rcases Nat.eq_or_lt_of_le hi1 with h | h
        · exact h ▸ hmem
        · exact hk5 i (by omega) hi2
    · exact ⟨counter, le_rfl, by omega, by simp [resolveNameAux, hmem], hmem,
        fun i hi1 hi2 => by omega⟩

theorem exists_fresh_suffix (existing : List String) (orig : String) :
    ∃ j, 1 ≤ j ∧ j < 1 + (existing.length + 1) ∧ (orig ++ "_" ++ natToStr j) ∉ existing := by
  by_contra hall
  push_neg at hall
  have hinj : Function.Injective (fun i : Nat => orig ++ "_" ++ natToStr (i + 1)) := by
    intro a b hab
    have hd : (natToStr (a + 1)).data = (natToStr (b + 1)).data := by
      have h1 := congrArg String.data hab
      simp only [String.data_append, List.append_assoc] at h1
      exact List.append_cancel_left (List.append_cancel_left h1)
    have := natToStr_data_injective _ _ hd
    omega
  have hnodup : ((List.range (existing.length + 1)).map
      (fun i : Nat => orig ++ "_" ++ natToStr (i + 1))).Nodup :=
    (List.nodup_range _).map hinj
  have hsub : ((List.range (existing.length + 1)).map
      (fun i : Nat => orig ++ "_" ++ natToStr (i + 1))) ⊆ existing := by
    intro s hs
    simp only [List.mem_map, List.mem_range] at hs
    obtain ⟨i, hi, rfl⟩ := hs
    exact hall (i + 1) (by omega) (by omega)
  have hlen := (hnodup.subperm hsub).length_le
  rw [List.length_map, List.length_range] at hlen
  omega

theorem resolveName_not_mem (existing : List String) (orig : String) :
    resolveName existing orig ∉ existing := by
  by_cases hmem : orig ∈ existing
  · obtain ⟨j, hj1, hj2, hj3⟩ := exists_fresh_suffix existing orig
    obtain ⟨k, _, _, hk3, hk4, _⟩ :=
      resolveNameAux_spec existing orig (existing.length + 1) 1 ⟨j, hj1, hj2, hj3⟩
    simpa [resolveName, hmem, hk3] using hk4
  · simp [resolveName, hmem]

/-- Characterization of collision resolution: the submitted name is kept when
free; otherwise the result is the submitted name with the least free numeric
suffix, found within registry-size many attempts (termination). -/
theorem resolveName_spec (existing : List String) (orig : String) :
    (orig ∉ existing → resolveName existing orig = orig) ∧
    (orig ∈ existing → ∃ k, 1 ≤ k ∧ k ≤ existing.length + 1 ∧
      resolveName existing orig = orig ++ "_" ++ natToStr k ∧
      (orig ++ "_" ++ natToStr k) ∉ existing ∧
      ∀ j, 1 ≤ j → j < k → (orig ++ "_" ++ natToStr j) ∈ existing) := by
  constructor
  · intro hmem
    simp [resolveName, hmem]
  · intro hmem
    obtain ⟨j, hj1, hj2, hj3⟩ := exists_fresh_suffix existing orig
    obtain ⟨k, hk1, hk2, hk3, hk4, hk5⟩ :=
      resolveNameAux_spec existing orig (existing.length + 1) 1 ⟨j, hj1, hj2, hj3⟩
    exact ⟨k, hk1, by omega, by simp [resolveName, hmem, hk3], hk4,
      fun i hi1 hi2 => hk5 i hi1 hi2⟩

/-- Session registry (PlayerManager).  The players dict preserves insertion
order in Python and is modelled as a list; players_by_connection is a derived
index and is not modelled.  next_uuid models uuid4 freshness, now models
datetime.now(). -/
structure PlayerManager where
  max_players : Nat
  players : List Player
  next_uuid : Nat
  now : Nat
deriving DecidableEq

/-- PlayerManager.add_player: rejects when the session is full, otherwise
registers a player under a collision-resolved unique name. -/
def PlayerManager.add_player (pm : PlayerManager) (name : String) (conn : Nat) :
    Option Player × PlayerManager :=
  if pm.players.length ≥ pm.max_players then (none, pm)
  else
    let resolved := resolveName (pm.players.map Player.name) name
    let p := mkPlayer pm.next_uuid pm.now resolved conn
    (some p,
      { pm with
        players := pm.players ++ [p]
        next_uuid := pm.next_uuid + 1
        now := pm.now + 1 })

/-- PlayerManager.remove_player: removes the player with the given id when
present (ids are unique, so the filter removes at most one entry). -/
def PlayerManager.remove_player (pm : PlayerManager) (pid : Nat) :
    Bool × PlayerManager :=
  if pm.players.any (fun p => p.id = pid) then
    (true, { pm with players := pm.players.filter (fun p => p.id ≠ pid) })
  else (false, pm)

/-- One registration or removal request arriving at the registry. -/
inductive RegistryOp
  | register (name : String) (conn : Nat)
  | unregister (pid : Nat)
deriving DecidableEq

def registryStep (pm : PlayerManager) : RegistryOp → PlayerManager
  | .register name conn => (pm.add_player name conn).2
  | .unregister pid => (pm.remove_player pid).2

/-- PlayerManager.__init__(max_players). -/
def initManager (maxP : Nat) : PlayerManager :=
  { max_players := maxP, players := [], next_uuid := 0, now := 0 }

/-- Registry state after a sequence of registrations and removals. -/
def runRegistry (maxP : Nat) (ops : List RegistryOp) : PlayerManager :=
  ops.foldl registryStep (initManager maxP)

theorem registryStep_max (pm : PlayerManager) (op : RegistryOp) :
    (registryStep pm op).max_players = pm.max_players := by
  cases op with
  | register name conn =>
    by_cases h : pm.players.length ≥ pm.max_players <;>
      simp [registryStep, PlayerManager.add_player, h]
  | unregister pid =>
    by_cases h : pm.players.any (fun p => p.id = pid) <;>
      simp [registryStep, PlayerManager.remove_player, h]

theorem registryStep_length (pm : PlayerManager) (op : RegistryOp)
    (h : pm.players.length ≤ pm.max_players) :
    (registryStep pm op).players.length ≤ pm.max_players := by
  cases op with
  | register name conn =>
    by_cases hfull : pm.players.length ≥ pm.max_players
    · simpa [registryStep, PlayerManager.add_player, hfull] using h
    · simp only [registryStep, PlayerManager.add_player, hfull, if_false]
      simp only [List.length_append, List.length_cons, List.length_nil]
      omega
  | unregister pid =>
    by_cases hmem : pm.players.any (fun p => p.id = pid)
    · simp only [registryStep, PlayerManager.remove_player, hmem, if_true]
      exact le_trans (List.length_filter_le _ _) h
    · simpa [registryStep, PlayerManager.remove_player, hmem] using h

theorem runRegistry_invariant (maxP : Nat) (ops : List RegistryOp) :
    (runRegistry maxP ops).max_players = maxP ∧
    (runRegistry maxP ops).players.length ≤ maxP := by
  have : ∀ pm, pm.max_players = maxP → pm.players.length ≤ maxP →
      (ops.foldl registryStep pm).max_players = maxP ∧
      (ops.foldl registryStep pm).players.length ≤ maxP := by
    induction ops with
    | nil => intro pm h1 h2; exact ⟨h1, h2⟩
    | cons op rest ih =>
      intro pm h1 h2
      exact ih (registryStep pm op) (h1 ▸ registryStep_max pm op)
        (h1 ▸ registryStep_length pm op (h1 ▸ h2))
  exact this (initManager maxP) rfl (by simp [initManager])

theorem registryStep_nodup (pm : PlayerManager) (op : RegistryOp)
    (h : (pm.players.map Player.name).Nodup) :
    ((registryStep pm op).players.map Player.name).Nodup := by
  cases op with
  | register name conn =>
    by_cases hfull : pm.players.length ≥ pm.max_players
    · simpa [registryStep, PlayerManager.add_player, hfull] using h
    · simp only [registryStep, PlayerManager.add_player, hfull, if_false]
      simp only [List.map_append, List.map_cons, List.map_nil, mkPlayer]
      rw [List.nodup_append]
      refine ⟨h, List.nodup_singleton _, ?_⟩
      intro a ha
      simp only [List.mem_singleton]
      intro heq
      exact resolveName_not_mem (pm.players.map Player.name) name (heq ▸ ha)
  | unregister pid =>
    by_cases hmem : pm.players.any (fun p => p.id = pid)
    · simp only [registryStep, PlayerManager.remove_player, hmem, if_true]
      exact ((List.filter_sublist _).map Player.name).nodup h
    · simpa [registryStep, PlayerManager.remove_player, hmem] using h

theorem runRegistry_nodup (maxP : Nat) (ops : List RegistryOp) :
    ((runRegistry maxP ops).players.map Player.name).Nodup := by
  have : ∀ pm, (pm.players.map Player.name).Nodup →
      ((ops.foldl registryStep pm).players.map Player.name).Nodup := by
    induction ops with
    | nil => intro pm h; exact h
    | cons op rest ih => intro pm h; exact ih _ (registryStep_nodup pm op h)
  exact this (initManager maxP) (by simp [initManager])

/-! ## Rolling history log (src/core/game_state.py, GameState.add_to_history) -/

/-- One history entry; the source stores a dict with keys timestamp, player,
message, type, session_id (the key named type is rendered here as category). -/
structure HistoryEntry where
  timestamp : Nat
  player : String
  message : String
  category : String
  session_id : String
deriving DecidableEq

/-- Python slice l[-k:].  Note the Python pitfall modelled exactly: for k = 0
the slice l[-0:] is l[0:], i.e. the whole list, not the empty suffix. -/
def pyTakeLast {α : Type} (k : Nat) (l : List α) : List α :=
  if k = 0 then l else l.drop (l.length - k)

/-- GameState.add_to_history, list part: append the entry, then trim with
game_history[-max_history:] whenever the length exceeds max_history. -/
def add_to_history (max_history : Nat) (history : List HistoryEntry)
    (e : HistoryEntry) : List HistoryEntry :=
  let h := history ++ [e]
  if max_history < h.length then pyTakeLast max_history h else h

/-- History obtained by appending the given entries, in order, to an empty
log. -/
def runHistory (max_history : Nat) (es : List HistoryEntry) : List HistoryEntry :=
  es.foldl (add_to_history max_history) []

theorem runHistory_append (max_history : Nat) (es : List HistoryEntry)
    (e : HistoryEntry) :
    runHistory max_history (es ++ [e])
      = add_to_history max_history (runHistory max_history es) e := by
  simp [runHistory, List.foldl_append]

theorem runHistory_eq_drop (max_history : Nat) (hmax : 1 ≤ max_history)
    (es : List HistoryEntry) :
    runHistory max_history es = es.drop (es.length - max_history) := by
  induction es using List.reverseRecOn with
  | nil => simp [runHistory]
  | append_singleton es e ih =>
    rw [runHistory_append, ih]
    rcases Nat.lt_or_ge es.length max_history with hlt | hge
    · have h0 : es.length - max_history = 0 := by omega
      have h1 : es.length + 1 - max_history = 0 := by omega
      rw [h0, List.drop_zero]
      simp only [add_to_history, List.length_append, List.length_cons,
        List.length_nil, List.length_append]
      rw [if_neg (by simp; omega)]
      simp [h1]
    · have htl : (es.drop (es.length - max_history)).length = max_history := by
        rw [List.length_drop]; omega
      simp only [add_to_history]
      rw [if_pos (by simp [htl])]
      have hk0 : max_history ≠ 0 := by omega
      simp only [pyTakeLast, hk0, if_false, List.length_append, htl,
        List.length_cons, List.length_nil]
      have hdrop1 : max_history + (0 + 1) - max_history = 1 := by omega
      rw [hdrop1]
      rw [List.drop_append_of_le_length (by omega)]
      rw [List.drop_drop]
      have harith : es.length + (0 + 1) - max_history = es.length - max_history + 1 := by
        omega
      rw [harith, List.drop_append_of_le_length (by omega)]

/-! ## Action queue (src/core/action_queue.py)

The validation at the top of ActionQueue.add_action restricts action_type to
the closed set fazer/dizer/historia (raising ValueError otherwise); this
closed set is represented by the inductive type ActionType, so the ValueError
branch is unrepresentable.  Logging calls are omitted.  Python object
identity of queued actions is modelled by the uid field; the aliasing between
the actions list and the last_story_context pointer is modelled by updating
both consistently (the source mutates the shared object). -/

inductive ActionType
  | fazer
  | dizer
  | historia
deriving DecidableEq

/-- String name of an action kind, as used in the source dictionaries. -/
def actionTypeStr : ActionType → String
  | .fazer => "fazer"
  | .dizer => "dizer"
  | .historia => "historia"

/-- One derived state mutation (ActionProcessor._generate_game_state_updates_for_action). -/
inductive GameStateUpdate
  | addHistory (player_id : String) (action_type : ActionType) (content : String)
      (ai_response : String) (timestamp : Nat)
  | updateWorldState (action : String) (impact : String) (timestamp : Nat)
deriving DecidableEq

/-- Per-action processing result dict: keys from _process_fazer/dizer/historia
plus the metadata merged in by _process_single_action. -/
structure ProcessResult where
  success : Bool
  error : Option String
  result : String
  action_outcome : Option String
  game_state_updates : List GameStateUpdate
  action_type : ActionType
  player_id : String
  content : String
  timestamp : Nat
deriving DecidableEq

/-- PlayerAction.__init__; conflicts is reserved and stays empty. -/
structure PlayerAction where
  uid : Nat
  player_id : String
  action_type : ActionType
  content : String
  timestamp : Nat
  processed : Bool
  result : Option ProcessResult
  conflicts : List String
deriving DecidableEq

inductive ProcessingOrder
  | chronological
  | priority
  | random
deriving DecidableEq

inductive TieBreaker
  | timestamp
  | player_order
  | roll
deriving DecidableEq

/-- ActionQueue.__init__: empty log, no story context, defaults
chronological / timestamp.  next_uid models object identity of created
actions, now models datetime.now(). -/
structure ActionQueue where
  actions : List PlayerAction
  last_story_context : Option PlayerAction
  processing_order : ProcessingOrder
  tie_breaker : TieBreaker
  next_uid : Nat
  now : Nat
deriving DecidableEq

def initQueue : ActionQueue :=
  { actions := [], last_story_context := none,
    processing_order := .chronological, tie_breaker := .timestamp,
    next_uid := 0, now := 0 }

/-- ActionQueue.add_action: create the action, point last_story_context at it
when it is a historia action, append it to the log. -/
def ActionQueue.add_action (q : ActionQueue) (player_id : String)
    (ty : ActionType) (content : String) : PlayerAction × ActionQueue :=
  let action : PlayerAction :=
    { uid := q.next_uid, player_id := player_id, action_type := ty,
      content := content, timestamp := q.now, processed := false,
      result := none, conflicts := [] }
  (action,
    { q with
      actions := q.actions ++ [action]
      last_story_context := if ty = .historia then some action else q.last_story_context
      next_uid := q.next_uid + 1
      now := q.now + 1 })

def ActionQueue.get_unprocessed_actions (q : ActionQueue) : List PlayerAction :=
  q.actions.filter (fun a => !a.processed)

def ActionQueue.get_actions_by_type (q : ActionQueue) (ty : ActionType) :
    List PlayerAction :=
  q.actions.filter (fun a => decide (a.action_type = ty))

/-- ActionQueue.clear_processed_actions: drop processed entries, return the
removed count; the last_story_context pointer is not touched. -/
def ActionQueue.clear_processed_actions (q : ActionQueue) : Nat × ActionQueue :=
  let remaining := q.actions.filter (fun a => !a.processed)
  (q.actions.length - remaining.length, { q with actions := remaining })

/-- Queue snapshot built by ActionQueue.get_queue_status. -/
structure QueueStatus where
  total_actions : Nat
  unprocessed_actions : Nat
  fazer_count : Nat
  dizer_count : Nat
  historia_count : Nat
  last_story_context : Option PlayerAction
  processing_order : ProcessingOrder
  tie_breaker : TieBreaker
deriving DecidableEq

def ActionQueue.get_queue_status (q : ActionQueue) : QueueStatus :=
  { total_actions := q.actions.length
    unprocessed_actions := q.get_unprocessed_actions.length
    fazer_count := (q.get_actions_by_type .fazer).length
    dizer_count := (q.get_actions_by_type .dizer).length
    historia_count := (q.get_actions_by_type .historia).length
    last_story_context := q.last_story_context
    processing_order := q.processing_order
    tie_breaker := q.tie_breaker }

/-! ## Action processor (ActionProcessor) -/

/-- Priority values from _sort_actions_for_processing. -/
def type_priority : ActionType → Nat
  | .historia => 3
  | .fazer => 2
  | .dizer => 1

/-- Ordering used by sorted(actions, key=lambda x: x.timestamp). -/
def chronoLe (a b : PlayerAction) : Prop := a.timestamp ≤ b.timestamp

instance : DecidableRel chronoLe := fun a b => Nat.decLe a.timestamp b.timestamp

/-- Ordering used by sorted(actions, key=lambda x: (type_priority, timestamp)):
ascending lexicographic comparison on the key pair, exactly as Python sorted
compares tuples. -/
def priorityLe (a b : PlayerAction) : Prop :=
  type_priority a.action_type < type_priority b.action_type ∨
    (type_priority a.action_type = type_priority b.action_type ∧
      a.timestamp ≤ b.timestamp)

instance : DecidableRel priorityLe := fun a b =>
  inferInstanceAs (Decidable
    (type_priority a.action_type < type_priority b.action_type ∨
      (type_priority a.action_type = type_priority b.action_type ∧
        a.timestamp ≤ b.timestamp)))

/-- First index at which a participant appears in the drained batch
(the player_order dict built in _sort_actions_for_processing, default 999). -/
def playerFirstIdx (l : List PlayerAction) (pid : String) : Nat :=
  (l.findIdx? (fun x => x.player_id == pid)).getD 999

/-- Ordering used by the player_order tie breaker re-sort:
key (timestamp, first index of the submitting player). -/
def playerOrderLe (l : List PlayerAction) (a b : PlayerAction) : Prop :=
  a.timestamp < b.timestamp ∨
    (a.timestamp = b.timestamp ∧
      playerFirstIdx l a.player_id ≤ playerFirstIdx l b.player_id)

instance (l : List PlayerAction) : DecidableRel (playerOrderLe l) := fun a b =>
  inferInstanceAs (Decidable
    (a.timestamp < b.timestamp ∨
      (a.timestamp = b.timestamp ∧
        playerFirstIdx l a.player_id ≤ playerFirstIdx l b.player_id)))

/-- ActionProcessor._sort_actions_for_processing.  Python sorted and
list.sort are stable ascending sorts by the given key; insertionSort with the
corresponding total preorder is exactly that function.  random.shuffle is the
opaque parameter shuffle. -/
def sortActionsForProcessing (q : ActionQueue)
    (shuffle : List PlayerAction → List PlayerAction)
    (actions : List PlayerAction) : List PlayerAction :=
  let sorted_actions :=
    match q.processing_order with
    | .chronological => List.insertionSort chronoLe actions
    | .priority => List.insertionSort priorityLe actions
    | .random => shuffle actions
  match q.tie_breaker with
  | .player_order =>
    List.insertionSort (playerOrderLe sorted_actions) sorted_actions
  | _ => sorted_actions

/-- Python truthiness used by the source (x or default, if not x):
None and the empty string both fall back to the default. -/
def orTruthy (s : Option String) (d : String) : String :=
  match s with
  | none => d
  | some t => if t = "" then d else t

/-- ActionProcessor._get_story_context. -/
def getStoryContext (q : ActionQueue) : Option String :=
  q.last_story_context.map (fun a => a.content)

/-- Prompt of _process_fazer_action.  The triple-quoted literals of the
source carry indentation whitespace that is not reproduced character for
character; every theorem below treats the collaborator as opaque in the
prompt, so only the data flowing into the prompt matters. -/
def promptFazer (story_context : Option String) (content : String) : String :=
  "Contexto da história: " ++ orTruthy story_context "Situação geral" ++
  "\n\nAção do jogador: " ++ content ++
  "\n\nDetermine o resultado desta ação considerando:" ++
  "\n- Sucesso/Falha/Parcial\n- Consequências imediatas\n- Impacto no mundo" ++
  "\n- Eventos adicionais que podem surgir" ++
  "\n\nSeja criativo e consequente com as ações anteriores."

/-- Prompt of _process_dizer_action. -/
def promptDizer (story_context : Option String) (content : String) : String :=
  "Contexto da história: " ++ orTruthy story_context "Situação geral" ++
  "\n\nFala do jogador: " ++ content ++
  "\n\nGere respostas de NPCs ou reações do mundo a esta fala.\nConsidere:" ++
  "\n- Quem pode estar ouvindo\n- Como diferentes NPCs reagiriam" ++
  "\n- Mudanças na atmosfera ou situação\n- Possíveis consequências sociais" ++
  "\n\nSeja natural e apropriado ao contexto."

/-- Prompt of _process_historia_action. -/
def promptHistoria (story_context : Option String) (content : String) : String :=
  "Contexto atual da história: " ++ orTruthy story_context "Situação geral" ++
  "\n\nElemento de história do jogador: " ++ content ++
  "\n\nIntegre este elemento à narrativa existente:" ++
  "\n- Como isso se conecta ao que já aconteceu" ++
  "\n- Que mudanças isso traz ao mundo\n- Novas possibilidades que se abrem" ++
  "\n- Elementos atmosféricos ou ambientais" ++
  "\n\nSeja criativo e mantenha a coerência da história."

/-- Deterministic fallback texts substituted when the collaborator call
returns no usable response. -/
def fallbackText : ActionType → String → String
  | .fazer, content =>
    "A ação \x27" ++ content ++ "\x27 é executada com sucesso moderado."
  | .dizer, _ =>
    "Suas palavras ecoam pela área, chamando a atenção de alguns NPCs."
  | .historia, content =>
    "O elemento \x27" ++ content ++
      "\x27 é integrado à narrativa, expandindo o mundo da história."

/-- Fallback of _generate_final_summary. -/
def fallbackSummary (n : Nat) : String :=
  "Após processar " ++ natToStr n ++
    " ações, a situação evoluiu significativamente." ++
    " Novas possibilidades se abrem para os jogadores."

/-- ActionProcessor._generate_game_state_updates_for_action. -/
def gameStateUpdatesForAction (a : PlayerAction) (ai_response : String) :
    List GameStateUpdate :=
  [GameStateUpdate.addHistory a.player_id a.action_type a.content ai_response
      a.timestamp] ++
    (if a.action_type = .fazer ∨ a.action_type = .historia then
      [GameStateUpdate.updateWorldState a.content "moderate" a.timestamp]
    else [])

/-- Collaborator request type of each kind (second argument of
generate_response). -/
def promptKind : ActionType → String
  | .fazer => "narrative"
  | .dizer => "dialogue"
  | .historia => "world_building"

/-- ActionProcessor._process_single_action: dispatch on the kind, call the
collaborator, substitute the deterministic fallback on a falsy response,
merge in the action metadata.  Each action sees only the pre-flush story
context; the game_state_updates parameter of the source function is unused
there and is dropped here. -/
def processSingleAction (ai : String → String → Option String)
    (story_context : Option String) (a : PlayerAction) : ProcessResult :=
  let prompt :=
    match a.action_type with
    | .fazer => promptFazer story_context a.content
    | .dizer => promptDizer story_context a.content
    | .historia => promptHistoria story_context a.content
  let ai_response :=
    orTruthy (ai prompt (promptKind a.action_type)) (fallbackText a.action_type a.content)
  { success := true, error := none, result := ai_response,
    action_outcome := some "success",
    game_state_updates := gameStateUpdatesForAction a ai_response,
    action_type := a.action_type, player_id := a.player_id,
    content := a.content, timestamp := a.timestamp }

/-- Python slice s[:n]. -/
def pyTake (n : Nat) (s : String) : String := String.mk (s.data.take n)

/-- One line of the summary prompt for a processed result. -/
def summaryLine (r : ProcessResult) : String :=
  "- " ++ actionTypeStr r.action_type ++ ": " ++ r.content ++ " -> " ++
    pyTake 100 r.result ++ "..."

/-- Prompt of _generate_final_summary (lines joined with chr(10)). -/
def promptSummary (story_context : Option String)
    (results : List ProcessResult) : String :=
  "Contexto da história: " ++ orTruthy story_context "Situação geral" ++
  "\n\nAções processadas:\n" ++
  String.intercalate "\n" (results.map summaryLine) ++
  "\n\nGere um resumo coerente da nova cena que emerge dessas ações.\nInclua:" ++
  "\n- O que mudou no mundo\n- Novas situações ou possibilidades" ++
  "\n- Ganchos para próximas ações dos jogadores\n- Estado atual da narrativa" ++
  "\n\nSeja envolvente e motive os jogadores a continuar."

/-- ActionProcessor._generate_final_summary. -/
def generateFinalSummary (ai : String → String → Option String)
    (results : List ProcessResult) (story_context : Option String) : String :=
  orTruthy (ai (promptSummary story_context results) "narrative")
    (fallbackSummary results.length)

/-- Effect of a flush on one pending entry: processed set to true and the
per-action result stored (action.processed = True; action.result = result). -/
def markAction (ai : String → String → Option String)
    (story_context : Option String) (a : PlayerAction) : PlayerAction :=
  { a with
    processed := true
    result := some (processSingleAction ai story_context a) }

/-- Flush return dict of ActionProcessor.process_all_actions.  The empty-queue
early return carries the message key and no final_summary key; Option models
the two dict shapes. -/
structure BatchResult where
  success : Bool
  message : Option String
  processed_count : Nat
  results : List ProcessResult
  final_summary : Option String
  game_state_updates : List GameStateUpdate
deriving DecidableEq

/-- ActionProcessor.process_all_actions.  Not modelled: logging, the
processing_history audit list, and _apply_game_state_updates (which touches
the shared GameState, not the queue; the derived updates themselves are
returned in the result, as in the source).  The per-action try/except in the
source cannot fire here because every embedded operation is total.  The
single-threaded embedding has no submissions during the flush. -/
def processAllActions (ai : String → String → Option String)
    (shuffle : List PlayerAction → List PlayerAction)
    (q : ActionQueue) : BatchResult × ActionQueue :=
  let unprocessed := q.get_unprocessed_actions
  if unprocessed.isEmpty then
    ({ success := true, message := some "Nenhuma ação para processar",
       processed_count := 0, results := [], final_summary := none,
       game_state_updates := [] }, q)
  else
    let story_context := getStoryContext q
    let sorted := sortActionsForProcessing q shuffle unprocessed
    let results := sorted.map (processSingleAction ai story_context)
    let game_state_updates :=
      (results.filter (fun r => r.success)).flatMap (fun r => r.game_state_updates)
    ({ success := true, message := none,
       processed_count := unprocessed.length, results := results,
       final_summary := some (generateFinalSummary ai results story_context),
       game_state_updates := game_state_updates },
     { q with
       actions := q.actions.map (fun a =>
         if a.processed then a else markAction ai story_context a)
       last_story_context := q.last_story_context.map (fun a =>
         if a.processed then a else markAction ai story_context a) })

/-! ## Status command (src/game_master/simple_master.py, _handle_status_command) -/

/-- Slice of GameState read by _handle_status_command: the participant
location map (get_player_location with the configured default) and the world
lookup behind get_location_description.  Location.get_description is a total
pure string build and is modelled as the stored description text. -/
structure GameStateM where
  player_locations : List (Nat × String)
  world_default_location : String
  world_locations : List (String × String)
deriving DecidableEq

/-- GameState.get_player_location: dict get with the configured default. -/
def GameStateM.get_player_location (gs : GameStateM) (pid : Nat) : String :=
  (gs.player_locations.lookup pid).getD gs.world_default_location

/-- GameState.get_location_description: description of a known location, or
the fallback text for an unknown one. -/
def GameStateM.get_location_description (gs : GameStateM) (name : String) : String :=
  match gs.world_locations.lookup name with
  | some d => d
  | none => "📍 " ++ name ++ "\nLocalização não encontrada."

/-- Models strftime on a successfully converted timestamp; in the source
this formatting is unreachable because the conversion raises first. -/
def strftimeHMS (t : Nat) : String := natToStr t

/-- Response text that _handle_status_command would build after a successful
timestamp conversion. -/
def statusText (p : Player) (current_location location_desc : String)
    (qs : QueueStatus) (ts : Nat) : String :=
  "👤 **STATUS DO JOGADOR:** " ++ p.name ++ "\n" ++
  "📍 **Localização:** " ++ current_location ++ "\n" ++
  "🕐 **Última atividade:** " ++ strftimeHMS ts ++ "\n\n" ++
  "📊 **STATUS DA FILA:**\n" ++
  "• Total de ações: " ++ natToStr qs.total_actions ++ "\n" ++
  "• Ações aguardando: " ++ natToStr qs.unprocessed_actions ++ "\n" ++
  "• Fazer: " ++ natToStr qs.fazer_count ++ "\n" ++
  "• Dizer: " ++ natToStr qs.dizer_count ++ "\n" ++
  "• História: " ++ natToStr qs.historia_count ++ "\n\n" ++
  "🌍 **DESCRIÇÃO DA LOCALIZAÇÃO:**\n" ++ location_desc ++ "\n\n" ++
  "💡 **DICA:** Use \x7bmestre\x7d para processar todas as ações em fila!"

/-- Try-body of _handle_status_command: read the location, read the queue
snapshot, then build the response, which calls
datetime.fromtimestamp(player.last_activity) on a datetime object. -/
def statusBody (gs : GameStateM) (q : ActionQueue) (p : Player) :
    Except String String := do
  let current_location := gs.get_player_location p.id
  let location_desc := gs.get_location_description current_location
  let qs := q.get_queue_status
  let ts ← datetimeFromtimestamp p.last_activity
  pure (statusText p current_location location_desc qs ts)

/-- SimpleGameMaster._handle_status_command: the try body builds the
snapshot; the except branch reports the caught exception as text.  The
handler reads but never writes the action queue. -/
def handleStatusCommand (gs : GameStateM) (q : ActionQueue) (p : Player) : String :=
  match statusBody gs q p with
  | .ok s => s
  | .error e => "❌ Erro ao obter status: " ++ e

/-! ## Command recognition (SimpleGameMaster._load_command_patterns and
_process_commands)

The source tests each message with pattern.match(action), i.e. re.match,
which anchors at the beginning of the string and does not require matching
to the end.  All pattern literals are ASCII, so re.IGNORECASE is modelled by
ASCII case folding. -/

/-- ASCII lower-case fold on a code point. -/
def asciiLowerNat (n : Nat) : Nat := if 65 ≤ n ∧ n ≤ 90 then n + 32 else n

/-- Case-insensitive character comparison (re.IGNORECASE on ASCII). -/
def lowerEq (p c : Char) : Bool := asciiLowerNat p.toNat == asciiLowerNat c.toNat

/-- Match the literal pattern characters case-insensitively at the start of
the subject, returning the remaining subject. -/
def stripPrefixCI : List Char → List Char → Option (List Char)
  | [], s => some s
  | _ :: _, [] => none
  | p :: ps, c :: cs => if lowerEq p c then stripPrefixCI ps cs else none

/-- Characters matched by \s (the subject strings of the claims are ASCII). -/
def isPySpace (c : Char) : Bool :=
  c == ' ' || c == '\t' || c == '\n' || c == '\r' || c == '\x0b' || c == '\x0c'

/-- Greedy match of (.+)\x7d against r: (.) does not match a newline, so the
capture is the longest nonempty newline-free prefix that is followed by a
closing brace. -/
def greedyCapture (r : List Char) : Option (List Char) :=
  let run := r.takeWhile (fun c => c != '\n')
  match ((List.range run.length).filter
      (fun j => decide (1 ≤ j) && (run.get? j == some '\x7d'))).max? with
  | some j => some (run.take j)
  | none => none

/-- Backtracking over \s+: the regex engine tries the longest whitespace run
first; the argument is the whitespace length currently consumed. -/
def captureFromWs (rest : List Char) : Nat → Option (List Char)
  | 0 => none
  | l + 1 =>
    match greedyCapture (rest.drop (l + 1)) with
    | some c => some c
    | none => captureFromWs rest l

/-- re.match of \x7b<kw>\s+(.+)\x7d with IGNORECASE, anchored at the start of
s; returns the captured group. -/
def matchContentCmd (kw : String) (s : String) : Option String :=
  match stripPrefixCI ('\x7b' :: kw.data) s.data with
  | none => none
  | some rest => (captureFromWs rest (rest.takeWhile isPySpace).length).map String.mk

/-- Optional-argument capture of (?:\s+(.+))?: greedy, may be absent. -/
def optCaptureFromWs (rest : List Char) : Nat → Option (List Char)
  | 0 => none
  | l + 1 =>
    let run := (rest.drop (l + 1)).takeWhile (fun c => c != '\n')
    if run.isEmpty then optCaptureFromWs rest l else some run

/-- re.match of \x7b<kw>\x7d(?:\s+(.+))? with IGNORECASE, anchored at the
start of s; returns the optional captured group. -/
def matchSimpleCmd (kw : String) (s : String) : Option (Option String) :=
  match stripPrefixCI ('\x7b' :: (kw.data ++ ['\x7d'])) s.data with
  | none => none
  | some rest =>
    some ((optCaptureFromWs rest (rest.takeWhile isPySpace).length).map String.mk)

/-- Target handler selected by _process_commands, with the captured group it
receives. -/
inductive CommandDispatch
  | fazer (content : String)
  | dizer (content : String)
  | historia (content : String)
  | mestre (arg : Option String)
  | status (arg : Option String)
  | ajuda (arg : Option String)
  | explorar (arg : Option String)
  | mover (arg : Option String)
  | inventario (arg : Option String)
  | salvar (arg : Option String)
  | carregar (arg : Option String)
deriving DecidableEq

/-- SimpleGameMaster._process_commands: the sequential chain of re.match
tests; none means the message is treated as free-form roleplay content. -/
def processCommands (s : String) : Option CommandDispatch :=
  match matchContentCmd "fazer" s with
  | some c => some (.fazer c)
  | none =>
  match matchContentCmd "dizer" s with
  | some c => some (.dizer c)
  | none =>
  match matchContentCmd "historia" s with
  | some c => some (.historia c)
  | none =>
  match matchSimpleCmd "mestre" s with
  | some g => some (.mestre g)
  | none =>
  match matchSimpleCmd "status" s with
  | some g => some (.status g)
  | none =>
  match matchSimpleCmd "ajuda" s with
  | some g => some (.ajuda g)
  | none =>
  match matchSimpleCmd "explorar" s with
  | some g => some (.explorar g)
  | none =>
  match matchSimpleCmd "mover" s with
  | some g => some (.mover g)
  | none =>
  match matchSimpleCmd "inventario" s with
  | some g => some (.inventario g)
  | none =>
  match matchSimpleCmd "salvar" s with
  | some g => some (.salvar g)
  | none =>
  match matchSimpleCmd "carregar" s with
  | some g => some (.carregar g)
  | none => none

/-- True when some pattern of the command table matches the message. -/
def anyCmdMatch (s : String) : Bool :=
  (matchContentCmd "fazer" s).isSome || (matchContentCmd "dizer" s).isSome ||
  (matchContentCmd "historia" s).isSome || (matchSimpleCmd "mestre" s).isSome ||
  (matchSimpleCmd "status" s).isSome || (matchSimpleCmd "ajuda" s).isSome ||
  (matchSimpleCmd "explorar" s).isSome || (matchSimpleCmd "mover" s).isSome ||
  (matchSimpleCmd "inventario" s).isSome || (matchSimpleCmd "salvar" s).isSome ||
  (matchSimpleCmd "carregar" s).isSome

/-- Name gate of RPGGameServer._get_player_name: a decoded, stripped
candidate name is accepted iff it is nonempty and at most 20 characters. -/
def acceptSubmittedName (name : String) : Bool :=
  decide (name ≠ "") && decide (name.length ≤ 20)

/-! ## Supporting lemmas -/

theorem char_eq_of_toNat_eq (a b : Char) (h : a.toNat = b.toNat) : a = b :=
  Char.eq_of_val_eq (UInt32.eq_of_val_eq (Fin.eq_of_val_eq h))

theorem sortActionsForProcessing_perm (q : ActionQueue)
    (shuffle : List PlayerAction → List PlayerAction)
    (hsh : ∀ l, (shuffle l).Perm l) (actions : List PlayerAction) :
    (sortActionsForProcessing q shuffle actions).Perm actions := by
  cases hq : q.tie_breaker <;> cases hp : q.processing_order <;>
    simp only [sortActionsForProcessing, hq, hp] <;>
    first
      | exact List.perm_insertionSort _ _
      | exact hsh actions
      | exact (List.perm_insertionSort _ _).trans (List.perm_insertionSort _ _)
      | exact (List.perm_insertionSort _ _).trans (hsh actions)

theorem isEmpty_false_of_ne_nil {α : Type} {l : List α} (h : l ≠ []) :
    l.isEmpty = false := by
  cases l with
  | nil => exact absurd rfl h
  | cons a as => rfl

theorem stripPrefixCI_get (p : List Char) :
    ∀ s r, stripPrefixCI p s = some r →
      ∀ i a, p.get? i = some a → ∃ c, s.get? i = some c ∧ lowerEq a c = true := by
  induction p with
  | nil =>
    intro s r h i a ha
    simp at ha
  | cons p0 ps ih =>
    intro s r h i a ha
    cases s with
    | nil => simp [stripPrefixCI] at h
    | cons c0 cs =>
      simp only [stripPrefixCI] at h
      by_cases hle : lowerEq p0 c0
      · rw [if_pos hle] at h
        cases i with
        | zero =>
          simp only [List.get?_cons_zero, Option.some.injEq] at ha
          exact ⟨c0, by simp, ha ▸ hle⟩
        | succ i =>
          simp only [List.get?_cons_succ] at ha ⊢
          exact ih cs r h i a ha
      · rw [if_neg hle] at h
        cases h

theorem stripPrefixCI_disjoint (p1 p2 s r1 : List Char) (i : Nat) (a b : Char)
    (ha : p1.get? i = some a) (hb : p2.get? i = some b)
    (hne : lowerEq a b = false)
    (h1 : stripPrefixCI p1 s = some r1) :
    stripPrefixCI p2 s = none := by
  cases h2 : stripPrefixCI p2 s with
  | none => rfl
  | some r2 =>
    obtain ⟨c, hc, hac⟩ := stripPrefixCI_get p1 s r1 h1 i a ha
    obtain ⟨c2, hc2, hbc⟩ := stripPrefixCI_get p2 s r2 h2 i b hb
    rw [hc] at hc2
    injection hc2 with hcc
    subst hcc
    simp only [lowerEq, beq_iff_eq] at hac hbc
    simp only [lowerEq, beq_eq_false_iff_ne, ne_eq] at hne
    exact absurd (hac.trans hbc.symm) hne

theorem matchContentCmd_strip (kw s : String) (c : String)
    (h : matchContentCmd kw s = some c) :
    ∃ rest, stripPrefixCI ('\x7b' :: kw.data) s.data = some rest := by
  unfold matchContentCmd at h
  cases hs : stripPrefixCI ('\x7b' :: kw.data) s.data with
  | none => rw [hs] at h; cases h
  | some rest => exact ⟨rest, rfl⟩

theorem matchSimpleCmd_strip (kw s : String) (g : Option String)
    (h : matchSimpleCmd kw s = some g) :
    ∃ rest, stripPrefixCI ('\x7b' :: (kw.data ++ ['\x7d'])) s.data = some rest := by
  unfold matchSimpleCmd at h
  cases hs : stripPrefixCI ('\x7b' :: (kw.data ++ ['\x7d'])) s.data with
  | none => rw [hs] at h; cases h
  | some rest => exact ⟨rest, rfl⟩

theorem matchContentCmd_none (kw s : String)
    (h : stripPrefixCI ('\x7b' :: kw.data) s.data = none) :
    matchContentCmd kw s = none := by
  unfold matchContentCmd
  rw [h]

theorem matchSimpleCmd_none (kw s : String)
    (h : stripPrefixCI ('\x7b' :: (kw.data ++ ['\x7d'])) s.data = none) :
    matchSimpleCmd kw s = none := by
  unfold matchSimpleCmd
  rw [h]

theorem lowerEq_lbrace_eq (c : Char) (h : lowerEq '\x7b' c = true) : c = '\x7b' := by
  simp only [lowerEq, beq_iff_eq, asciiLowerNat] at h
  rw [if_neg (by decide), show ('\x7b' : Char).toNat = 123 from rfl] at h
  split at h
  · omega
  · exact char_eq_of_toNat_eq c '\x7b'
      (by rw [show ('\x7b' : Char).toNat = 123 from rfl]; omega)

theorem stripPrefixCI_lbrace_none (ps cs : List Char)
    (hhead : cs.head? ≠ some '\x7b') :
    stripPrefixCI ('\x7b' :: ps) cs = none := by
  cases cs with
  | nil => rfl
  | cons c rest =>
    cases hle : lowerEq '\x7b' c
    · simp [stripPrefixCI, hle]
    · exact absurd (by simp [lowerEq_lbrace_eq c hle]) hhead

/-- Participant-name shape invariant: every registered name is either a
submitted candidate or a candidate with a numeric suffix attached. -/
theorem runRegistry_name_shape (maxP : Nat) (ops : List RegistryOp)
    (hops : ∀ name conn, RegistryOp.register name conn ∈ ops → name.length ≤ 20) :
    ∀ n ∈ (runRegistry maxP ops).players.map Player.name,
      n.length ≤ 20 ∨
        ∃ base k, base.length ≤ 20 ∧ 1 ≤ k ∧ n = base ++ "_" ++ natToStr k := by
  have main : ∀ ops2 : List RegistryOp,
      (∀ name conn, RegistryOp.register name conn ∈ ops2 → name.length ≤ 20) →
      ∀ pm : PlayerManager,
      (∀ n ∈ pm.players.map Player.name,
        n.length ≤ 20 ∨
          ∃ base k, base.length ≤ 20 ∧ 1 ≤ k ∧ n = base ++ "_" ++ natToStr k) →
      ∀ n ∈ (ops2.foldl registryStep pm).players.map Player.name,
        n.length ≤ 20 ∨
          ∃ base k, base.length ≤ 20 ∧ 1 ≤ k ∧ n = base ++ "_" ++ natToStr k := by
    intro ops2
    induction ops2 with
    | nil => intro _ pm hpm; exact hpm
    | cons op rest ih =>
      intro hops2 pm hpm
      refine ih (fun name conn hmem => hops2 name conn (by simp [hmem])) _ ?_
      cases op with
      | register name conn =>
        by_cases hfull : pm.players.length ≥ pm.max_players
        · simpa [registryStep, PlayerManager.add_player, hfull] using hpm
        · simp only [registryStep, PlayerManager.add_player, hfull, if_false]
          intro n hn
          simp only [List.map_append, List.mem_append, List.map_cons,
            List.map_nil, List.mem_singleton, mkPlayer] at hn
          rcases hn with hn | hn
          · exact hpm n hn
          · have hcand : name.length ≤ 20 := hops2 name conn (by simp)
            by_cases hmem : name ∈ pm.players.map Player.name
            · obtain ⟨k, hk1, _, hk3, _, _⟩ :=
                (resolveName_spec (pm.players.map Player.name) name).2 hmem
              exact Or.inr ⟨name, k, hcand, hk1, by rw [hn, hk3]⟩
            · rw [hn, (resolveName_spec (pm.players.map Player.name) name).1 hmem]
              exact Or.inl hcand
      | unregister pid =>
        by_cases hmem : pm.players.any (fun p => p.id = pid)
        · simp only [registryStep, PlayerManager.remove_player, hmem, if_true]
          intro n hn
          simp only [List.mem_map] at hn
          obtain ⟨p, hp, rfl⟩ := hn
          exact hpm p.name (List.mem_map_of_mem Player.name (List.mem_of_mem_filter hp))
        · simpa [registryStep, PlayerManager.remove_player, hmem] using hpm
  exact main ops hops (initManager maxP) (by simp [initManager])

theorem flush_fst_nonempty (ai : String → String → Option String)
    (shuffle : List PlayerAction → List PlayerAction) (q : ActionQueue)
    (hne : q.get_unprocessed_actions ≠ []) :
    (processAllActions ai shuffle q).1 =
      { success := true, message := none,
        processed_count := q.get_unprocessed_actions.length,
        results := (sortActionsForProcessing q shuffle q.get_unprocessed_actions).map
          (processSingleAction ai (getStoryContext q)),
        final_summary := some (generateFinalSummary ai
          ((sortActionsForProcessing q shuffle q.get_unprocessed_actions).map
            (processSingleAction ai (getStoryContext q))) (getStoryContext q)),
        game_state_updates :=
          (((sortActionsForProcessing q shuffle q.get_unprocessed_actions).map
            (processSingleAction ai (getStoryContext q))).filter
              (fun r => r.success)).flatMap (fun r => r.game_state_updates) } := by
  simp [processAllActions, isEmpty_false_of_ne_nil hne]

theorem flush_snd_nonempty (ai : String → String → Option String)
    (shuffle : List PlayerAction → List PlayerAction) (q : ActionQueue)
    (hne : q.get_unprocessed_actions ≠ []) :
    (processAllActions ai shuffle q).2 =
      { q with
        actions := q.actions.map (fun a =>
          if a.processed then a else markAction ai (getStoryContext q) a)
        last_story_context := q.last_story_context.map (fun a =>
          if a.processed then a else markAction ai (getStoryContext q) a) } := by
  simp [processAllActions, isEmpty_false_of_ne_nil hne]

theorem processCommands_isSome_eq (s : String) :
    (processCommands s).isSome = anyCmdMatch s := by
  unfold processCommands anyCmdMatch
  repeat' split <;> simp_all

/-! ## Claim theorems -/

/-- Queue of the C1 scenario: priority policy with the default timestamp
tie breaker; say("x"), do("y"), historia("z") submitted in that order. -/
def qC1 : ActionQueue :=
  let q0 := { initQueue with processing_order := ProcessingOrder.priority }
  let q1 := (q0.add_action "p1" ActionType.dizer "x").2
  let q2 := (q1.add_action "p2" ActionType.fazer "y").2
  (q2.add_action "p3" ActionType.historia "z").2

/-- C1: under the priority policy the code assigns historia the highest
priority value (3) but sorts the key pairs in ascending order, so the batch
say("x"), do("y"), historia("z") is drained and processed as say, do,
historia — the reverse of the order the claim (and the comment above the
sort in the source) states.  This theorem evaluates the embedded sort and
flush at that failing input. -/
theorem priority_policy_drains_lowest_priority_first :
    ((sortActionsForProcessing qC1 id qC1.get_unprocessed_actions).map
      (fun a => (a.action_type, a.content)))
      = [(ActionType.dizer, "x"), (ActionType.fazer, "y"),
          (ActionType.historia, "z")] ∧
    ((processAllActions (fun _ _ => none) id qC1).1.results.map
      (fun r => (r.action_type, r.content)))
      = [(ActionType.dizer, "x"), (ActionType.fazer, "y"),
          (ActionType.historia, "z")] ∧
    type_priority ActionType.historia = 3 ∧
    type_priority ActionType.fazer = 2 ∧
    type_priority ActionType.dizer = 1 := by
  decide

/-- C2: for every registered participant the status command returns the
caught-exception text, not the snapshot: Player.last_activity always holds a
datetime object (set by the constructor and by update_activity), and
_handle_status_command passes it to datetime.fromtimestamp, which raises
TypeError; the except branch turns that into an error message.  The handler
reads but never writes the action queue (its embedding takes the queue
read-only). -/
theorem status_command_returns_error_text (gs : GameStateM) (q : ActionQueue)
    (p : Player) (t : Nat) (hp : p.last_activity = PyTimeVal.datetimeObj t) :
    handleStatusCommand gs q p =
      "❌ Erro ao obter status: an integer is required (got type datetime.datetime)" ∧
    (∀ uuid now name conn, (mkPlayer uuid now name conn).last_activity
        = PyTimeVal.datetimeObj now) ∧
    (∀ (p2 : Player) now, (p2.update_activity now).last_activity
        = PyTimeVal.datetimeObj now) := by
  refine ⟨?_, fun _ _ _ _ => rfl, fun _ _ => rfl⟩
  simp [handleStatusCommand, statusBody, hp, datetimeFromtimestamp]

/-- Game-state slice for the C2 witness. -/
def gsC2 : GameStateM :=
  { player_locations := [], world_default_location := "Praça Central",
    world_locations := [] }

theorem status_command_returns_error_text_witness :
    handleStatusCommand gsC2 initQueue (mkPlayer 0 0 "Ana" 0) =
      "❌ Erro ao obter status: an integer is required (got type datetime.datetime)" :=
  (status_command_returns_error_text gsC2 initQueue (mkPlayer 0 0 "Ana" 0) 0 rfl).1

/-- Registration sequence for the C3 counterexample: the same 20-character
name submitted twice. -/
def opsC3 : List RegistryOp :=
  [RegistryOp.register "aaaaaaaaaaaaaaaaaaaa" 0,
   RegistryOp.register "aaaaaaaaaaaaaaaaaaaa" 1]

/-- C3 counterexample: both submitted candidates pass the server 20-character
gate, yet after collision suffixing the second registered display name has 22
characters, refuting the claim that every registered name is at most 20
characters long. -/
theorem suffixed_name_exceeds_limit_counterexample :
    ("aaaaaaaaaaaaaaaaaaaa".length ≤ 20 ∧
      acceptSubmittedName "aaaaaaaaaaaaaaaaaaaa" = true) ∧
    ¬ (∀ p ∈ (runRegistry 8 opsC3).players, p.name.length ≤ 20) ∧
    ((runRegistry 8 opsC3).players.map Player.name)
      = ["aaaaaaaaaaaaaaaaaaaa", "aaaaaaaaaaaaaaaaaaaa_1"] ∧
    "aaaaaaaaaaaaaaaaaaaa_1".length = 22 := by
  decide

/-- C3 amended: when every submitted candidate has at most 20 characters,
every registered display name either has at most 20 characters itself or is
a candidate extended with a numeric suffix _k (k ≥ 1), and only suffixed
names can exceed the 20-character bound. -/
theorem registered_name_length_amended (maxP : Nat) (ops : List RegistryOp)
    (hops : ∀ name conn, RegistryOp.register name conn ∈ ops → name.length ≤ 20) :
    ∀ n ∈ (runRegistry maxP ops).players.map Player.name,
      n.length ≤ 20 ∨
        ∃ base k, base.length ≤ 20 ∧ 1 ≤ k ∧ n = base ++ "_" ++ natToStr k :=
  runRegistry_name_shape maxP ops hops

theorem registered_name_length_amended_witness :
    "Ana".length ≤ 20 ∨
      ∃ base k, base.length ≤ 20 ∧ 1 ≤ k ∧ "Ana" = base ++ "_" ++ natToStr k :=
  registered_name_length_amended 8 [RegistryOp.register "Ana" 0]
    (by
      intro name conn hmem
      simp only [List.mem_singleton, RegistryOp.register.injEq] at hmem
      rw [hmem.1]
      decide)
    "Ana" (by decide)

/-- C4 counterexample: the token \x7bstatus\x7d is recognized on its own, but
the same token inside a message body ("oi \x7bstatus\x7d") is dispatched to no
handler and falls through to free-form roleplay, because the source uses
re.match, which anchors at the start of the string. -/
theorem embedded_token_not_recognized_counterexample :
    processCommands "\x7bstatus\x7d" = some (CommandDispatch.status none) ∧
    "oi \x7bstatus\x7d" = "oi " ++ "\x7bstatus\x7d" ∧
    processCommands "oi \x7bstatus\x7d" = none := by
  decide

/-- C4 amended: a bracketed command token is recognized, case-insensitively,
exactly when its pattern matches at the start of the message body, and such a
message is dispatched to the corresponding handler with its captured
argument; a message is recognized iff some pattern of the table matches, and
a message whose body does not begin with an opening brace is always treated
as free-form roleplay, even if a token occurs later in the body. -/
theorem commands_recognized_at_start_amended (s : String) :
    (∀ c, matchContentCmd "fazer" s = some c →
      processCommands s = some (CommandDispatch.fazer c)) ∧
    (∀ c, matchContentCmd "dizer" s = some c →
      processCommands s = some (CommandDispatch.dizer c)) ∧
    (∀ c, matchContentCmd "historia" s = some c →
      processCommands s = some (CommandDispatch.historia c)) ∧
    (∀ g, matchSimpleCmd "mestre" s = some g →
      processCommands s = some (CommandDispatch.mestre g)) ∧
    (∀ g, matchSimpleCmd "status" s = some g →
      processCommands s = some (CommandDispatch.status g)) ∧
    ((processCommands s).isSome = anyCmdMatch s) ∧
    (s.data.head? ≠ some '\x7b' → processCommands s = none) := by
  refine ⟨?_, ?_, ?_, ?_, ?_, processCommands_isSome_eq s, ?_⟩
  · intro c hm
    unfold processCommands
    rw [hm]
  · intro c hm
    obtain ⟨rest, hr⟩ := matchContentCmd_strip _ _ _ hm
    have hf : matchContentCmd "fazer" s = none :=
      matchContentCmd_none _ _
        (stripPrefixCI_disjoint _ _ _ _ 1 'd' 'f' (by decide) (by decide) (by decide) hr)
    unfold processCommands
    rw [hf, hm]
  · intro c hm
    obtain ⟨rest, hr⟩ := matchContentCmd_strip _ _ _ hm
    have hf : matchContentCmd "fazer" s = none :=
      matchContentCmd_none _ _
        (stripPrefixCI_disjoint _ _ _ _ 1 'h' 'f' (by decide) (by decide) (by decide) hr)
    have hd : matchContentCmd "dizer" s = none :=
      matchContentCmd_none _ _
        (stripPrefixCI_disjoint _ _ _ _ 1 'h' 'd' (by decide) (by decide) (by decide) hr)
    unfold processCommands
    rw [hf, hd, hm]
  · intro g hm
    obtain ⟨rest, hr⟩ := matchSimpleCmd_strip _ _ _ hm
    have hf : matchContentCmd "fazer" s = none :=
      matchContentCmd_none _ _
        (stripPrefixCI_disjoint _ _ _ _ 1 'm' 'f' (by decide) (by decide) (by decide) hr)
    have hd : matchContentCmd "dizer" s = none :=
      matchContentCmd_none _ _
        (stripPrefixCI_disjoint _ _ _ _ 1 'm' 'd' (by decide) (by decide) (by decide) hr)
    have hh : matchContentCmd "historia" s = none :=
      matchContentCmd_none _ _
        (stripPrefixCI_disjoint _ _ _ _ 1 'm' 'h' (by decide) (by decide) (by decide) hr)
    unfold processCommands
    rw [hf, hd, hh, hm]
  · intro g hm
    obtain ⟨rest, hr⟩ := matchSimpleCmd_strip _ _ _ hm
    have hf : matchContentCmd "fazer" s = none :=
      matchContentCmd_none _ _
        (stripPrefixCI_disjoint _ _ _ _ 1 's' 'f' (by decide) (by decide) (by decide) hr)
    have hd : matchContentCmd "dizer" s = none :=
      matchContentCmd_none _ _
        (stripPrefixCI_disjoint _ _ _ _ 1 's' 'd' (by decide) (by decide) (by decide) hr)
    have hh : matchContentCmd "historia" s = none :=
      matchContentCmd_none _ _
        (stripPrefixCI_disjoint _ _ _ _ 1 's' 'h' (by decide) (by decide) (by decide) hr)
    have hme : matchSimpleCmd "mestre" s = none :=
      matchSimpleCmd_none _ _
        (stripPrefixCI_disjoint _ _ _ _ 1 's' 'm' (by decide) (by decide) (by decide) hr)
    unfold processCommands
    rw [hf, hd, hh, hme, hm]
  · intro hhead
    have k1 := matchContentCmd_none "fazer" s (stripPrefixCI_lbrace_none _ _ hhead)
    have k2 := matchContentCmd_none "dizer" s (stripPrefixCI_lbrace_none _ _ hhead)
    have k3 := matchContentCmd_none "historia" s (stripPrefixCI_lbrace_none _ _ hhead)
    have k4 := matchSimpleCmd_none "mestre" s (stripPrefixCI_lbrace_none _ _ hhead)
    have k5 := matchSimpleCmd_none "status" s (stripPrefixCI_lbrace_none _ _ hhead)
    have k6 := matchSimpleCmd_none "ajuda" s (stripPrefixCI_lbrace_none _ _ hhead)
    have k7 := matchSimpleCmd_none "explorar" s (stripPrefixCI_lbrace_none _ _ hhead)
    have k8 := matchSimpleCmd_none "mover" s (stripPrefixCI_lbrace_none _ _ hhead)
    have k9 := matchSimpleCmd_none "inventario" s (stripPrefixCI_lbrace_none _ _ hhead)
    have k10 := matchSimpleCmd_none "salvar" s (stripPrefixCI_lbrace_none _ _ hhead)
    have k11 := matchSimpleCmd_none "carregar" s (stripPrefixCI_lbrace_none _ _ hhead)
    unfold processCommands
    rw [k1, k2, k3, k4, k5, k6, k7, k8, k9, k10, k11]

theorem commands_recognized_at_start_amended_witness :
    processCommands "\x7bSTATUS\x7d" = some (CommandDispatch.status none) ∧
    processCommands "\x7bFaZeR   abrir a porta\x7d"
      = some (CommandDispatch.fazer "abrir a porta") ∧
    processCommands "ola \x7bmestre\x7d" = none :=
  ⟨(commands_recognized_at_start_amended "\x7bSTATUS\x7d").2.2.2.2.1 none (by decide),
   (commands_recognized_at_start_amended "\x7bFaZeR   abrir a porta\x7d").1
      "abrir a porta" (by decide),
   (commands_recognized_at_start_amended "ola \x7bmestre\x7d").2.2.2.2.2.2 (by decide)⟩

/-- C5: with the generation collaborator failing on every call, a flush of a
non-empty queue still succeeds, produces exactly one result per pending
action (a permutation correspondence on the identifying fields), and every
result carries the deterministic fallback text of its kind; the embedded
flush is total, so no error propagates to the caller. -/
theorem fallback_guarantee (ai : String → String → Option String)
    (shuffle : List PlayerAction → List PlayerAction) (q : ActionQueue)
    (hai : ∀ p t, ai p t = none)
    (hsh : ∀ l, (shuffle l).Perm l)
    (hne : q.get_unprocessed_actions ≠ []) :
    (processAllActions ai shuffle q).1.success = true ∧
    (processAllActions ai shuffle q).1.results.length
      = q.get_unprocessed_actions.length ∧
    ((processAllActions ai shuffle q).1.results.map
        (fun r => (r.player_id, r.action_type, r.content))).Perm
      (q.get_unprocessed_actions.map
        (fun a => (a.player_id, a.action_type, a.content))) ∧
    ∀ r ∈ (processAllActions ai shuffle q).1.results,
      r.success = true ∧ r.result = fallbackText r.action_type r.content := by
  rw [flush_fst_nonempty ai shuffle q hne]
  have hperm := sortActionsForProcessing_perm q shuffle hsh q.get_unprocessed_actions
  refine ⟨rfl, ?_, ?_, ?_⟩
  · simp [List.length_map, hperm.length_eq]
  · rw [List.map_map]
    exact hperm.map _
  · intro r hr
    simp only [List.mem_map] at hr
    obtain ⟨a, _, rfl⟩ := hr
    exact ⟨rfl, by simp [processSingleAction, hai, orTruthy]⟩

/-- Queue for the C5 witness: two pending actions. -/
def qC5 : ActionQueue :=
  ((initQueue.add_action "ana" ActionType.fazer "explorar").2.add_action
    "bruno" ActionType.dizer "oi").2

theorem fallback_guarantee_witness :
    (processAllActions (fun _ _ => none) id qC5).1.success = true ∧
    (processAllActions (fun _ _ => none) id qC5).1.results.length
      = qC5.get_unprocessed_actions.length ∧
    ((processAllActions (fun _ _ => none) id qC5).1.results.map
        (fun r => (r.player_id, r.action_type, r.content))).Perm
      (qC5.get_unprocessed_actions.map
        (fun a => (a.player_id, a.action_type, a.content))) ∧
    ∀ r ∈ (processAllActions (fun _ _ => none) id qC5).1.results,
      r.success = true ∧ r.result = fallbackText r.action_type r.content :=
  fallback_guarantee (fun _ _ => none) id qC5 (fun _ _ => rfl)
    (fun l => List.Perm.refl l) (by decide)

/-- C6 counterexample: a flush of a queue with no pending actions completes
with success and zero processed actions but returns no aggregate summary
string (the early-return dict has no final_summary key), refuting the claim
that every completed flush returns one aggregate summary string. -/
theorem empty_flush_has_no_summary_counterexample :
    (processAllActions (fun _ _ => none) id initQueue).1.success = true ∧
    (processAllActions (fun _ _ => none) id initQueue).1.processed_count = 0 ∧
    (processAllActions (fun _ _ => none) id initQueue).1.final_summary = none := by
  decide

/-- C6 amended: after a flush (no submissions during the flush in this
single-threaded embedding) every entry of the log is processed while entry
identities are preserved, the pending set is empty, processed_count equals
the number of actions pending at flush start, and an aggregate summary
string is returned provided at least one action was pending. -/
theorem flush_postconditions_amended (ai : String → String → Option String)
    (shuffle : List PlayerAction → List PlayerAction) (q : ActionQueue) :
    (∀ a ∈ (processAllActions ai shuffle q).2.actions, a.processed = true) ∧
    ((processAllActions ai shuffle q).2.actions.map (fun a => a.uid)
      = q.actions.map (fun a => a.uid)) ∧
    (processAllActions ai shuffle q).2.get_unprocessed_actions = [] ∧
    (processAllActions ai shuffle q).1.processed_count
      = q.get_unprocessed_actions.length ∧
    (q.get_unprocessed_actions ≠ [] →
      ∃ s, (processAllActions ai shuffle q).1.final_summary = some s) := by
  by_cases hne : q.get_unprocessed_actions = []
  · have hall : ∀ a ∈ q.actions, a.processed = true := by
      intro a ha
      by_contra hp
      have hmem : a ∈ q.get_unprocessed_actions := by
        simp [ActionQueue.get_unprocessed_actions, List.mem_filter, ha, hp]
      rw [hne] at hmem
      cases hmem
    have h2 : (processAllActions ai shuffle q).2 = q := by
      simp [processAllActions, hne]
    refine ⟨?_, by rw [h2], ?_, ?_, fun h => absurd hne h⟩
    · rw [h2]; exact hall
    · rw [h2]
      simpa [ActionQueue.get_unprocessed_actions] using hne
    · simp [processAllActions, hne]
  · rw [flush_fst_nonempty ai shuffle q hne, flush_snd_nonempty ai shuffle q hne]
    refine ⟨?_, ?_, ?_, rfl, fun _ => ⟨_, rfl⟩⟩
    · intro a ha
      simp only [List.mem_map] at ha
      obtain ⟨b, _, rfl⟩ := ha
      by_cases hb : b.processed <;> simp [hb, markAction]
    · rw [List.map_map]
      apply List.map_congr_left
      intro a _
      by_cases hb : a.processed <;> simp [hb, markAction]
    · simp only [ActionQueue.get_unprocessed_actions, List.filter_map]
      rw [List.filter_eq_nil_iff.mpr]
      · simp
      · intro a _
        by_cases hb : a.processed <;> simp [hb, markAction, Function.comp]

/-- Queue for the C6 witness: the two-action scenario of the specification. -/
def qC6 : ActionQueue :=
  ((initQueue.add_action "ana" ActionType.fazer "explorar").2.add_action
    "bruno" ActionType.dizer "oi").2

theorem flush_postconditions_amended_witness :
    (∀ a ∈ (processAllActions (fun _ _ => none) id qC6).2.actions,
      a.processed = true) ∧
    (processAllActions (fun _ _ => none) id qC6).1.processed_count
      = qC6.get_unprocessed_actions.length ∧
    ∃ s, (processAllActions (fun _ _ => none) id qC6).1.final_summary = some s :=
  ⟨(flush_postconditions_amended (fun _ _ => none) id qC6).1,
   (flush_postconditions_amended (fun _ _ => none) id qC6).2.2.2.1,
   (flush_postconditions_amended (fun _ _ => none) id qC6).2.2.2.2 (by decide)⟩

/-- C7: for every sequence of registrations and removals the registry never
holds more than max_participants players, and a registration attempted when
the registry is full returns None and leaves the registry unchanged. -/
theorem registry_capacity (maxP : Nat) (ops : List RegistryOp)
    (name : String) (conn : Nat) :
    (runRegistry maxP ops).players.length ≤ maxP ∧
    ((runRegistry maxP ops).players.length = maxP →
      (runRegistry maxP ops).add_player name conn = (none, runRegistry maxP ops)) := by
  refine ⟨(runRegistry_invariant maxP ops).2, ?_⟩
  intro hlen
  have hmax := (runRegistry_invariant maxP ops).1
  simp [PlayerManager.add_player, hlen, hmax]

theorem registry_capacity_witness :
    (runRegistry 1 [RegistryOp.register "Ana" 0]).add_player "Bruno" 1
      = (none, runRegistry 1 [RegistryOp.register "Ana" 0]) :=
  (registry_capacity 1 [RegistryOp.register "Ana" 0] "Bruno" 1).2 (by decide)

/-- C8: after any sequence of registrations and removals no two registered
participants share a display name; collision resolution keeps a free
submitted name unchanged and otherwise appends the least free numeric suffix
_k with 1 ≤ k, found within registry-size-plus-one attempts (so the
while loop always terminates with a fresh name). -/
theorem registry_name_uniqueness (maxP : Nat) (ops : List RegistryOp)
    (existing : List String) (orig : String) :
    ((runRegistry maxP ops).players.map Player.name).Nodup ∧
    resolveName existing orig ∉ existing ∧
    (orig ∉ existing → resolveName existing orig = orig) ∧
    (orig ∈ existing → ∃ k, 1 ≤ k ∧ k ≤ existing.length + 1 ∧
      resolveName existing orig = orig ++ "_" ++ natToStr k ∧
      (orig ++ "_" ++ natToStr k) ∉ existing ∧
      ∀ j, 1 ≤ j → j < k → (orig ++ "_" ++ natToStr j) ∈ existing) :=
  ⟨runRegistry_nodup maxP ops, resolveName_not_mem existing orig,
    (resolveName_spec existing orig).1, (resolveName_spec existing orig).2⟩

theorem registry_name_uniqueness_witness :
    ((runRegistry 8 [RegistryOp.register "Ana" 0, RegistryOp.register "Ana" 1,
        RegistryOp.register "Ana" 2]).players.map Player.name).Nodup ∧
    resolveName [] "Ana" = "Ana" ∧
    (∃ k, 1 ≤ k ∧ k ≤ 3 ∧
      resolveName ["Ana", "Ana_1"] "Ana" = "Ana" ++ "_" ++ natToStr k ∧
      ("Ana" ++ "_" ++ natToStr k) ∉ ["Ana", "Ana_1"] ∧
      ∀ j, 1 ≤ j → j < k → ("Ana" ++ "_" ++ natToStr j) ∈ ["Ana", "Ana_1"]) :=
  ⟨(registry_name_uniqueness 8 [RegistryOp.register "Ana" 0,
      RegistryOp.register "Ana" 1, RegistryOp.register "Ana" 2] [] "x").1,
   (registry_name_uniqueness 8 [] [] "Ana").2.2.1 (by decide),
   (registry_name_uniqueness 8 [] ["Ana", "Ana_1"] "Ana").2.2.2 (by decide)⟩

/-- History entry for the C9 counterexample. -/
def entryC9 : HistoryEntry :=
  { timestamp := 0, player := "Sistema", message := "boot", category := "system",
    session_id := "s1" }

/-- C9 counterexample: with max_history configured to 0, appending one entry
leaves the log at length 1, because the trimming slice
game_history[-max_history:] is game_history[-0:]=game_history[0:], the whole
list; this refutes len(history) ≤ max_history for that configuration. -/
theorem history_cap_zero_counterexample :
    ¬ ((runHistory 0 [entryC9]).length ≤ 0) ∧
    runHistory 0 [entryC9] = [entryC9] := by
  decide

/-- C9 amended: for every positive max_history the history after any append
sequence is exactly the suffix of the appended entries of length at most
max_history, so len(history) ≤ max_history always holds, and appending
max_history + K entries to an empty log leaves exactly the max_history most
recent entries, in order, with the K oldest entries absent. -/
theorem history_bound_amended (max_history : Nat) (hmax : 1 ≤ max_history)
    (es : List HistoryEntry) :
    runHistory max_history es = es.drop (es.length - max_history) ∧
    (runHistory max_history es).length ≤ max_history ∧
    (∀ K, es.length = max_history + K → runHistory max_history es = es.drop K) := by
  refine ⟨runHistory_eq_drop max_history hmax es, ?_, ?_⟩
  · rw [runHistory_eq_drop max_history hmax es, List.length_drop]
    omega
  · intro K hK
    rw [runHistory_eq_drop max_history hmax es, hK]
    congr 1
    omega

/-- History entries for the C9 witness. -/
def entryC9w1 : HistoryEntry :=
  { timestamp := 1, player := "Ana", message := "um", category := "player",
    session_id := "s1" }

def entryC9w2 : HistoryEntry :=
  { timestamp := 2, player := "Bruno", message := "dois", category := "player",
    session_id := "s1" }

theorem history_bound_amended_witness :
    runHistory 1 [entryC9w1, entryC9w2] = [entryC9w1, entryC9w2].drop 1 :=
  (history_bound_amended 1 (by decide) [entryC9w1, entryC9w2]).2.2 1 (by decide)

/-- C10: compaction never resets the last-story-context pointer: if the
queue points at an unprocessed historia action in the log, then after a
flush (which marks it processed) and a compaction (which removes every
processed entry, leaving the log empty), the pointer still refers to the
removed action (same identity and content, now marked processed), the story
context is still that removed content, and it remains the story context the
next flush would capture after a new non-historia action is enqueued. -/
theorem compaction_keeps_story_context (ai : String → String → Option String)
    (shuffle : List PlayerAction → List PlayerAction) (q : ActionQueue)
    (a : PlayerAction)
    (h1 : q.last_story_context = some a) (h2 : a.processed = false)
    (h3 : a ∈ q.actions) :
    ((processAllActions ai shuffle q).2.clear_processed_actions).2.last_story_context
      = some (markAction ai (getStoryContext q) a) ∧
    (markAction ai (getStoryContext q) a).uid = a.uid ∧
    (markAction ai (getStoryContext q) a).content = a.content ∧
    (markAction ai (getStoryContext q) a).processed = true ∧
    ((processAllActions ai shuffle q).2.clear_processed_actions).2.actions = [] ∧
    getStoryContext ((processAllActions ai shuffle q).2.clear_processed_actions).2
      = some a.content ∧
    ∀ pid content,
      getStoryContext (((((processAllActions ai shuffle q).2.clear_processed_actions).2).add_action
        pid ActionType.fazer content).2) = some a.content := by
  have hne : q.get_unprocessed_actions ≠ [] := by
    intro h
    have hmem : a ∈ q.get_unprocessed_actions := by
      simp [ActionQueue.get_unprocessed_actions, List.mem_filter, h3, h2]
    rw [h] at hmem
    cases hmem
  rw [flush_snd_nonempty ai shuffle q hne]
  have hall : ∀ b ∈ (q.actions.map (fun x =>
      if x.processed then x else markAction ai (getStoryContext q) x)),
      b.processed = true := by
    intro b hb
    simp only [List.mem_map] at hb
    obtain ⟨x, _, rfl⟩ := hb
    by_cases hx : x.processed <;> simp [hx, markAction]
  have hclear : ((({ q with
        actions := q.actions.map (fun a =>
          if a.processed then a else markAction ai (getStoryContext q) a)
        last_story_context := q.last_story_context.map (fun a =>
          if a.processed then a else markAction ai (getStoryContext q) a) } :
      ActionQueue)).clear_processed_actions).2.actions = [] := by
    simp only [ActionQueue.clear_processed_actions]
    rw [List.filter_eq_nil_iff.mpr]
    intro b hb
    simp [hall b hb]
  refine ⟨?_, rfl, rfl, rfl, hclear, ?_, ?_⟩
  · simp [ActionQueue.clear_processed_actions, h1, h2]
  · simp [getStoryContext, ActionQueue.clear_processed_actions, h1, h2, markAction]
  · intro pid content
    simp [getStoryContext, ActionQueue.add_action, ActionQueue.clear_processed_actions,
      h1, h2, markAction]

/-- Queue and action for the C10 witness: one pending historia action. -/
def qC10 : ActionQueue :=
  (initQueue.add_action "ana" ActionType.historia "tempestade").2

def aC10 : PlayerAction :=
  (initQueue.add_action "ana" ActionType.historia "tempestade").1

theorem compaction_keeps_story_context_witness :
    ((processAllActions (fun _ _ => none) id qC10).2.clear_processed_actions).2.last_story_context
      = some (markAction (fun _ _ => none) (getStoryContext qC10) aC10) ∧
    (markAction (fun _ _ => none) (getStoryContext qC10) aC10).uid = aC10.uid ∧
    (markAction (fun _ _ => none) (getStoryContext qC10) aC10).content
      = aC10.content ∧
    (markAction (fun _ _ => none) (getStoryContext qC10) aC10).processed = true ∧
    ((processAllActions (fun _ _ => none) id qC10).2.clear_processed_actions).2.actions = [] ∧
    getStoryContext ((processAllActions (fun _ _ => none) id qC10).2.clear_processed_actions).2
      = some aC10.content ∧
    ∀ pid content,
      getStoryContext (((((processAllActions (fun _ _ => none) id qC10).2.clear_processed_actions).2).add_action
        pid ActionType.fazer content).2) = some aC10.content :=
  compaction_keeps_story_context (fun _ _ => none) id qC10 aC10
    (by decide) (by decide) (by decide)

end RpgAi
